import Mathlib

set_option maxHeartbeats 1000000
set_option maxRecDepth 4000

/-!
Verification development for an OpenAPI-to-Zod schema converter and code
generator.  The converter translates OpenAPI `components.schemas`
definitions into an in-memory Zod-style validator representation; the code
generator serializes that representation into TypeScript source text,
ordering declarations with a dependency-driven sequencer.

Object identity of the TypeScript heap is modelled with an allocation
counter: every runtime Zod value carries the `Nat` identifier it was
allocated with, aliases share the identifier, and the JavaScript `===`
test used by the generator's registry search is identifier equality.
-/

/-- Source-side OpenAPI schema node.  Fields, in order: `type`, `nullable`,
`enum`, `properties`, `required`, `items`, `allOf`, `oneOf`, `anyOf`,
`$ref`.  `Option` models an absent (undefined) key. -/
inductive OpenAPISchema where
  | mk : Option String → Option Bool → Option (List String) →
      Option (List (String × Option OpenAPISchema)) → Option (List String) →
      Option OpenAPISchema → Option (List OpenAPISchema) → Option (List OpenAPISchema) →
      Option (List OpenAPISchema) → Option String → OpenAPISchema

def OpenAPISchema.type : OpenAPISchema → Option String
  | .mk t _ _ _ _ _ _ _ _ _ => t

def OpenAPISchema.nullable : OpenAPISchema → Option Bool
  | .mk _ n _ _ _ _ _ _ _ _ => n

def OpenAPISchema.enumVals : OpenAPISchema → Option (List String)
  | .mk _ _ e _ _ _ _ _ _ _ => e

def OpenAPISchema.properties : OpenAPISchema → Option (List (String × Option OpenAPISchema))
  | .mk _ _ _ p _ _ _ _ _ _ => p

def OpenAPISchema.required : OpenAPISchema → Option (List String)
  | .mk _ _ _ _ r _ _ _ _ _ => r

def OpenAPISchema.items : OpenAPISchema → Option OpenAPISchema
  | .mk _ _ _ _ _ i _ _ _ _ => i

def OpenAPISchema.allOf : OpenAPISchema → Option (List OpenAPISchema)
  | .mk _ _ _ _ _ _ a _ _ _ => a

def OpenAPISchema.oneOf : OpenAPISchema → Option (List OpenAPISchema)
  | .mk _ _ _ _ _ _ _ o _ _ => o

def OpenAPISchema.anyOf : OpenAPISchema → Option (List OpenAPISchema)
  | .mk _ _ _ _ _ _ _ _ a _ => a

def OpenAPISchema.refKey : OpenAPISchema → Option String
  | .mk _ _ _ _ _ _ _ _ _ r => r

/-- `clearNullable s` is `s` with the `nullable` keyword removed. -/
def clearNullable : OpenAPISchema → OpenAPISchema
  | .mk t _ e p r i a o an rf => .mk t none e p r i a o an rf

/-- Value carried by a `z.literal`. -/
inductive LitValue where
  | str : String → LitValue
  | num : Int → LitValue
  | bool : Bool → LitValue

/-- A recorded zod string check (`_def.checks` entry).  `other` stands for
any check kind the generator does not recognise. -/
inductive StrCheck where
  | min : Nat → StrCheck
  | max : Nat → StrCheck
  | date : StrCheck
  | other : String → StrCheck
deriving BEq, DecidableEq

/-- Runtime Zod value.  The first `Nat` of every constructor is the
allocation identifier (object identity); a `lazy` node stores the source
schema its getter closure will convert on demand. -/
inductive Zod where
  | object : Nat → List (String × Zod) → Zod
  | array : Nat → Zod → Zod
  | union : Nat → List Zod → Zod
  | str : Nat → List StrCheck → Zod
  | num : Nat → Zod
  | bool : Nat → Zod
  | enum : Nat → List String → Zod
  | lit : Nat → LitValue → Zod
  | nullable : Nat → Zod → Zod
  | optional : Nat → Zod → Zod
  | lazy : Nat → OpenAPISchema → Zod
  | never : Nat → Zod
  | unknown : Nat → Zod

/-- Allocation identifier of a Zod value (models reference identity). -/
def Zod.id : Zod → Nat
  | .object i _ => i
  | .array i _ => i
  | .union i _ => i
  | .str i _ => i
  | .num i => i
  | .bool i => i
  | .enum i _ => i
  | .lit i _ => i
  | .nullable i _ => i
  | .optional i _ => i
  | .lazy i _ => i
  | .never i => i
  | .unknown i => i

/-- `stripId z` replaces the allocation identifier of the node by `0`,
exposing the node's structure independently of which allocation produced
it (for leaf nodes this is exactly structural equality). -/
def stripId : Zod → Zod
  | .object _ s => .object 0 s
  | .array _ e => .array 0 e
  | .union _ o => .union 0 o
  | .str _ c => .str 0 c
  | .num _ => .num 0
  | .bool _ => .bool 0
  | .enum _ v => .enum 0 v
  | .lit _ v => .lit 0 v
  | .nullable _ i => .nullable 0 i
  | .optional _ i => .optional 0 i
  | .lazy _ b => .lazy 0 b
  | .never _ => .never 0
  | .unknown _ => .unknown 0

/-- Is the node an outer `Nullable` wrapper? -/
def isNullableNode : Zod → Bool
  | .nullable _ _ => true
  | _ => false

/-- Split a character list on a separator character (the JavaScript
`String.split` with a single-character separator). -/
def splitCharAux (sep : Char) : List Char → List Char → List String
  | [], acc => [String.mk acc.reverse]
  | c :: rest, acc =>
    if c == sep then String.mk acc.reverse :: splitCharAux sep rest []
    else splitCharAux sep rest (c :: acc)

/-- `s.split(sep)` for a single-character separator. -/
def splitChar (sep : Char) (s : String) : List String :=
  splitCharAux sep s.data []

/-- Association-list lookup, modelling `record[key]` / `Map.get`. -/
def lookupKV : List (String × α) → String → Option α
  | [], _ => none
  | (k', v) :: rest, k => if k' == k then some v else lookupKV rest k

/-- Association-list update, modelling `record[key] = v` / `Map.set`:
an existing key keeps its position, a new key is appended. -/
def setkv : List (String × α) → String → α → List (String × α)
  | [], k, v => [(k, v)]
  | (k', v') :: rest, k, v =>
      if k' == k then (k, v) :: rest else (k', v') :: setkv rest k v

/-- JavaScript object spread `{...a, ...b}`: keys of `a` keep their
position (values overridden by `b` where shared), new keys of `b` are
appended in `b`'s order. -/
def spreadMerge (a b : List (String × α)) : List (String × α) :=
  a.map (fun p => match lookupKV b p.1 with
    | some v => (p.1, v)
    | none => p) ++
  b.filter (fun p => (lookupKV a p.1).isNone)

/-- Converter state: the input spec's schema map, the shared
`zodSchemas` registry/cache, emitted diagnostic warnings, and the
allocation counter. -/
structure ConvState where
  spec : List (String × Option OpenAPISchema)
  zodSchemas : List (String × Zod)
  warnings : List String
  nextId : Nat

def bumpId (st : ConvState) : ConvState :=
  ⟨st.spec, st.zodSchemas, st.warnings, st.nextId + 1⟩

def addWarn (st : ConvState) (w : String) : ConvState :=
  ⟨st.spec, st.zodSchemas, st.warnings ++ [w], st.nextId⟩

def setCache (st : ConvState) (n : String) (z : Zod) : ConvState :=
  ⟨st.spec, setkv st.zodSchemas n z, st.warnings, st.nextId⟩

/-- Allocate a fresh Zod value with the next identifier. -/
def allocZ (mk : Nat → Zod) (st : ConvState) : Zod × ConvState :=
  (mk st.nextId, bumpId st)

def initState (spec : List (String × Option OpenAPISchema)) : ConvState :=
  ⟨spec, [], [], 0⟩

/-- `isObjectSchema` guard of the converter. -/
def isObjectSchema (s : OpenAPISchema) : Bool :=
  s.type == some "object"

/-- `handleRef`: resolve the trailing path segment of a `$ref`.  A cache
hit returns the registered value; an unseen name present in the spec is
registered as a fresh lazy wrapper; a missing target emits a diagnostic
warning and degrades to Unknown (never fatal). -/
def handleRef (r : String) (st : ConvState) : Zod × ConvState :=
  let schemaName := (splitChar '/' r).getLastD ""
  match lookupKV st.zodSchemas schemaName with
  | some z => (z, st)
  | none =>
    match (lookupKV st.spec schemaName).bind (fun x => x) with
    | none =>
      allocZ Zod.unknown
        (addWarn st ("Warning: Referenced schema \"" ++ schemaName ++ "\" not found in spec"))
    | some refSchema =>
      let lz := allocZ (fun i => Zod.lazy i refSchema) st
      (lz.1, setCache lz.2 schemaName lz.1)

/-- Convert a list of member schemas left to right, threading state
(the `schemas.map(s => this.convertSchema(s))` step). -/
def convertSchemaList (cv : OpenAPISchema → ConvState → Zod × ConvState) :
    List OpenAPISchema → ConvState → List Zod × ConvState
  | [], st => ([], st)
  | s :: rest, st =>
    let z := cv s st
    let zs := convertSchemaList cv rest z.2
    (z.1 :: zs.1, zs.2)

/-- `handleAnyOf` (also used for `oneOf`): convert every member, then
0 members → Never, 1 member → that member unwrapped, otherwise a Union
of the conversions in source order. -/
def handleAnyOf (cv : OpenAPISchema → ConvState → Zod × ConvState)
    (schemas : List OpenAPISchema) (st : ConvState) : Zod × ConvState :=
  let cs := convertSchemaList cv schemas st
  match cs.1 with
  | [] => (Zod.never cs.2.nextId, bumpId cs.2)
  | [z] => (z, cs.2)
  | _ => (Zod.union cs.2.nextId cs.1, bumpId cs.2)

/-- The property-shape building loop of `convertObjectSchema`:
skip undefined property values, convert the rest in declaration order,
wrapping in Optional unless the name is required. -/
def buildShape (cv : OpenAPISchema → ConvState → Zod × ConvState) (req : List String) :
    List (String × Option OpenAPISchema) → List (String × Zod) × ConvState →
      List (String × Zod) × ConvState
  | [], acc => acc
  | (_, none) :: rest, acc => buildShape cv req rest acc
  | (k, some v) :: rest, acc =>
    let fz := cv v acc.2
    let entry :=
      if req.contains k then (fz.1, fz.2)
      else (Zod.optional fz.2.nextId fz.1, bumpId fz.2)
    buildShape cv req rest (setkv acc.1 k entry.1, entry.2)

/-- `convertObjectSchema`: build the shape from declared properties and
the required set, allocate the object, then apply the outer nullable
wrapper if `nullable` is truthy. -/
def convertObjectSchema (cv : OpenAPISchema → ConvState → Zod × ConvState)
    (s : OpenAPISchema) (st : ConvState) : Zod × ConvState :=
  let folded := buildShape cv (s.required.getD []) (s.properties.getD []) ([], st)
  let obj := allocZ (fun i => Zod.object i folded.1) folded.2
  match s.nullable with
  | some true => allocZ (fun i => Zod.nullable i obj.1) obj.2
  | _ => obj

/-- `handleAllOf`: structurally merge only the object-typed members
(spread-union of property maps, concatenation of required lists), then
convert the merged object schema. -/
def handleAllOf (cv : OpenAPISchema → ConvState → Zod × ConvState)
    (schemas : List OpenAPISchema) (st : ConvState) : Zod × ConvState :=
  let merged := schemas.foldl
    (fun acc s =>
      if isObjectSchema s then
        let p := match s.properties with
          | some ps => spreadMerge acc.1 ps
          | none => acc.1
        let r := match s.required with
          | some rs => acc.2 ++ rs
          | none => acc.2
        (p, r)
      else acc)
    (([] : List (String × Option OpenAPISchema)), ([] : List String))
  convertObjectSchema cv
    (.mk (some "object") none none (some merged.1) (some merged.2) none none none none none) st

/-- `convertArraySchema`. -/
def convertArraySchema (cv : OpenAPISchema → ConvState → Zod × ConvState)
    (s : OpenAPISchema) (st : ConvState) : Zod × ConvState :=
  let it := match s.items with
    | some i => cv i st
    | none => allocZ Zod.unknown st
  let arr := allocZ (fun i => Zod.array i it.1) it.2
  match s.nullable with
  | some true => allocZ (fun i => Zod.nullable i arr.1) arr.2
  | _ => arr

/-- `convertStringSchema`: an enum present yields a Literal (single
value) or Enum (several); otherwise a plain string, nullable-wrapped if
requested.  Note the enum branches return before the nullable check. -/
def convertStringSchema (s : OpenAPISchema) (st : ConvState) : Zod × ConvState :=
  match s.enumVals with
  | some vs =>
    if vs.length == 1 then allocZ (fun i => Zod.lit i (LitValue.str (vs.headD ""))) st
    else allocZ (fun i => Zod.enum i vs) st
  | none =>
    let base := allocZ (fun i => Zod.str i []) st
    match s.nullable with
    | some true => allocZ (fun i => Zod.nullable i base.1) base.2
    | _ => base

/-- `convertNumberSchema` (also used for `integer`). -/
def convertNumberSchema (s : OpenAPISchema) (st : ConvState) : Zod × ConvState :=
  let base := allocZ Zod.num st
  match s.nullable with
  | some true => allocZ (fun i => Zod.nullable i base.1) base.2
  | _ => base

/-- `convertBooleanSchema`. -/
def convertBooleanSchema (s : OpenAPISchema) (st : ConvState) : Zod × ConvState :=
  match s.nullable with
  | some true =>
    let base := allocZ Zod.bool st
    allocZ (fun i => Zod.nullable i base.1) base.2
  | _ => allocZ Zod.bool st

/-- `convertSchema` dispatch, first match wins: `$ref`, `allOf`, `anyOf`,
`oneOf`, object, array, string, number/integer, boolean; otherwise
Unknown.  `fuel` bounds recursion depth; `sizeOf` of the input always
exceeds its nesting depth, so the fuel branch is never taken when the
function is entered with `sizeOf` fuel. -/
def convertSchema : Nat → OpenAPISchema → ConvState → Zod × ConvState
  | 0, _, st => allocZ Zod.unknown st
  | fuel+1, s, st =>
    if (s.refKey).isSome then handleRef ((s.refKey).getD "") st
    else match s.allOf with
    | some l => handleAllOf (fun t u => convertSchema fuel t u) l st
    | none => match s.anyOf with
      | some l => handleAnyOf (fun t u => convertSchema fuel t u) l st
      | none => match s.oneOf with
        | some l => handleAnyOf (fun t u => convertSchema fuel t u) l st
        | none =>
          if s.type == some "object" then
            convertObjectSchema (fun t u => convertSchema fuel t u) s st
          else if s.type == some "array" then
            convertArraySchema (fun t u => convertSchema fuel t u) s st
          else if s.type == some "string" then convertStringSchema s st
          else if s.type == some "number" || s.type == some "integer" then
            convertNumberSchema s st
          else if s.type == some "boolean" then convertBooleanSchema s st
          else allocZ Zod.unknown st

/-- Execute a lazy node's getter closure: convert the stored source
schema in the current converter state.  `fuel` bounds the conversion
recursion depth (the TypeScript conversion is structurally terminating;
any fuel exceeding the schema's nesting depth gives the same result). -/
def runGetter (fuel : Nat) (body : OpenAPISchema) (st : ConvState) : Zod × ConvState :=
  convertSchema fuel body st

/-- `convert()`: register every named schema of the spec as a lazy
wrapper over its definition (skipping undefined entries). -/
def runConvert (st : ConvState) : ConvState :=
  st.spec.foldl
    (fun acc kv =>
      match kv.2 with
      | none => acc
      | some s =>
        let lz := allocZ (fun i => Zod.lazy i s) acc
        setCache lz.2 kv.1 lz.1)
    st

/-! ### Dependency analyzer -/

/-- `Object.entries(this.schemas).find(([, s]) => s === schema)?.[0]`:
registry search by reference identity (allocation identifier). -/
def findRefName (schemas : List (String × Zod)) (z : Zod) : Option String :=
  (schemas.find? (fun p => p.2.id == z.id)).map (fun p => p.1)

/-- Flat-map an extraction function over a list of sub-schemas,
threading converter state. -/
def extractMany (f : ConvState → Zod → List String × ConvState) :
    ConvState → List Zod → List String × ConvState
  | st, [] => ([], st)
  | st, z :: rest =>
    let a := f st z
    let b := extractMany f a.2 rest
    (a.1 ++ b.1, b.2)

/-- `extractSchemaNames`: collect the names of registered lazy nodes
reachable without expanding them; an unregistered lazy node is expanded
once through its getter. -/
def extractSchemaNames : Nat → ConvState → Zod → List String × ConvState
  | 0, st, _ => ([], st)
  | fuel+1, st, z =>
    match z with
    | Zod.object _ shape =>
        extractMany (fun a b => extractSchemaNames fuel a b) st (shape.map (fun p => p.2))
    | Zod.array _ e => extractSchemaNames fuel st e
    | Zod.union _ opts => extractMany (fun a b => extractSchemaNames fuel a b) st opts
    | Zod.nullable _ i => extractSchemaNames fuel st i
    | Zod.optional _ i => extractSchemaNames fuel st i
    | Zod.lazy _ body =>
      match findRefName st.zodSchemas z with
      | some n => ([n], st)
      | none =>
        let got := runGetter fuel body st
        extractSchemaNames fuel got.2 got.1
    | _ => ([], st)

/-- `getReferencingSchemaNames`: a top-level lazy registry entry is
expanded through its getter before extraction (so it does not just
report its own name). -/
def getReferencingSchemaNames (fuel : Nat) (st : ConvState) (z : Zod) :
    List String × ConvState :=
  match z with
  | Zod.lazy _ body =>
    let got := runGetter fuel body st
    extractSchemaNames fuel got.2 got.1
  | _ => extractSchemaNames fuel st z

/-! ### Sequencer -/

/-- Dependency map: schema name to the ordered list of names it
references (a JavaScript `Map`, insertion-ordered, unique keys). -/
abbrev DepMap := List (String × List String)

/-- `Map.delete`: remove the entry with the given key (first occurrence). -/
def eraseKey : List (String × α) → String → List (String × α)
  | [], _ => []
  | (k', v) :: rest, k => if k' == k then rest else (k', v) :: eraseKey rest k

/-- `result.splice(pos, 0, name)`: insert at position `pos`, clamped to
the list's length as in JavaScript. -/
def spliceInsert (l : List String) (i : Nat) (a : String) : List String :=
  l.take i ++ a :: l.drop i

/-- One iteration of `processElement`'s dependency loop: run the
placement function on the next dependency at the running target
position, advancing the position and the insertion count by the number
of elements it inserted. -/
def depStep (f : DepMap → List String → Nat → String → Option (DepMap × List String × Nat)) :
    Option (DepMap × List String × Nat × Nat) → String →
      Option (DepMap × List String × Nat × Nat)
  | none, _ => none
  | some (m, res, pos, cnt), dep =>
    match f m res pos dep with
    | none => none
    | some (m2, res2, c) => some (m2, res2, pos + c, cnt + c)

/-- `processElement(targetPosition, name)` of the sequencer, returning
the updated map, the updated result list, and the number of inserted
elements.  A name no longer in the map contributes zero insertions;
otherwise the name is consumed from the map, spliced in at the target
position, and its dependencies are placed recursively ahead of it.
`fuel` bounds the recursion depth; any fuel exceeding the map size
suffices (`none` is the fuel-exhaustion signal, proved unreachable). -/
def processElement : Nat → DepMap → List String → Nat → String →
    Option (DepMap × List String × Nat)
  | 0, _, _, _, _ => none
  | fuel+1, m, res, pos, name =>
    match lookupKV m name with
    | none => some (m, res, 0)
    | some deps =>
      match deps.foldl (depStep (fun a b c d => processElement fuel a b c d))
          (some (eraseKey m name, spliceInsert res pos name, pos, 0)) with
      | none => none
      | some (m2, res2, _, cnt) => some (m2, res2, cnt + 1)

/-- The `while (true)` loop of `generateSchemaSequenceFrom`: repeatedly
place the map's first remaining entry at the end of the result, until
the map is consumed. -/
def sequenceLoop : Nat → DepMap → List String → Option (List String)
  | _, [], res => some res
  | 0, _ :: _, _ => none
  | fuel+1, e :: rest, res =>
    match processElement ((e :: rest).length + 1) (e :: rest) res res.length e.1 with
    | none => none
    | some (m1, res1, _) => sequenceLoop fuel m1 res1

/-- `generateSchemaSequenceFrom`: order the named schemas, consuming the
dependency map. -/
def generateSchemaSequenceFrom (m : DepMap) : Option (List String) :=
  sequenceLoop m.length m []

/-! ### Code generator -/

/-- Generator state on top of the shared converter state: the set of
fully generated names and the set of names currently being generated. -/
structure GenState where
  conv : ConvState
  generated : List String
  generating : List String

def setConv (st : GenState) (c : ConvState) : GenState :=
  ⟨c, st.generated, st.generating⟩

def addGenerating (st : GenState) (n : String) : GenState :=
  ⟨st.conv, st.generated, st.generating ++ [n]⟩

def removeGenerating (st : GenState) (n : String) : GenState :=
  ⟨st.conv, st.generated, st.generating.erase n⟩

def addGenerated (st : GenState) (n : String) : GenState :=
  ⟨st.conv, st.generated ++ [n], st.generating⟩

/-- `indent(code)`: two-space indent every line. -/
def indentOne (code : String) : String :=
  String.intercalate "\n" ((splitChar '\n' code).map (fun l => "  " ++ l))

def isIdentStart (c : Char) : Bool :=
  c == '$' || c == '_' || ('A' ≤ c && c ≤ 'Z') || ('a' ≤ c && c ≤ 'z')

def isIdentRest (c : Char) : Bool :=
  isIdentStart c || ('0' ≤ c && c ≤ '9')

/-- `formatObjectKey`: bare identifiers stay bare, anything else is
double-quoted. -/
def formatObjectKey (k : String) : String :=
  match k.toList with
  | [] => "\"" ++ k ++ "\""
  | c :: rest => if isIdentStart c && rest.all isIdentRest then k else "\"" ++ k ++ "\""

/-- The dedup guard at the top of `generateSchemaCode`: the schema is
(by reference identity) a registry entry that is fully generated and not
currently being generated. -/
def dedupGuard (st : GenState) (z : Zod) : Bool :=
  match findRefName st.conv.zodSchemas z with
  | some rn => st.generated.contains rn && !(st.generating.contains rn)
  | none => false

/-- The string-check rendering loop: append `.min(n)` / `.max(n)` /
`.date()` for each recorded check in order; any other check kind throws. -/
def renderChecks : String → List StrCheck → Except String String
  | acc, [] => Except.ok acc
  | acc, StrCheck.min v :: rest => renderChecks (acc ++ ".min(" ++ toString v ++ ")") rest
  | acc, StrCheck.max v :: rest => renderChecks (acc ++ ".max(" ++ toString v ++ ")") rest
  | acc, StrCheck.date :: rest => renderChecks (acc ++ ".date()") rest
  | _, StrCheck.other k :: _ => Except.error ("unsupported check kind: " ++ k)

/-- Render a literal value as in `z.literal(...)` (strings quoted). -/
def litText : LitValue → String
  | LitValue.str s => "\"" ++ s ++ "\""
  | LitValue.num n => toString n
  | LitValue.bool b => toString b

/-- Shape-rendering loop of the object branch: `key: code` per property. -/
def genShapeProps (g : GenState → Zod → String → Except String (String × GenState))
    (baseName : String) :
    GenState → List (String × Zod) → Except String (List String × GenState)
  | st, [] => Except.ok ([], st)
  | st, (k, v) :: rest =>
    match g st v (baseName ++ "." ++ k) with
    | Except.error e => Except.error e
    | Except.ok (code, st1) =>
      match genShapeProps g baseName st1 rest with
      | Except.error e => Except.error e
      | Except.ok (codes, st2) => Except.ok ((formatObjectKey k ++ ": " ++ code) :: codes, st2)

/-- Option-rendering loop of the union branch, numbering options. -/
def genUnionOpts (g : GenState → Zod → String → Except String (String × GenState))
    (baseName : String) :
    GenState → List Zod → Nat → Except String (List String × GenState)
  | st, [], _ => Except.ok ([], st)
  | st, o :: rest, i =>
    match g st o (baseName ++ ".union." ++ toString i) with
    | Except.error e => Except.error e
    | Except.ok (code, st1) =>
      match genUnionOpts g baseName st1 rest (i + 1) with
      | Except.error e => Except.error e
      | Except.ok (codes, st2) => Except.ok (code :: codes, st2)

/-- `generateSchemaCode(schema, schemaName)`: render a Zod value to a
source expression.  A registry entry that is fully generated and not
in progress renders as its identifier; a registered lazy node renders
as a deferred `z.lazy` reference unless fully generated; an unregistered
lazy node is expanded through its getter inside a `z.lazy` wrapper.
An unrecognised string check throws, aborting the render. -/
def generateSchemaCode : Nat → String → GenState → Zod → String →
    Except String (String × GenState)
  | 0, _, _, _, _ => Except.error "out of fuel"
  | fuel+1, pre, st, schema, name =>
    if dedupGuard st schema then
      Except.ok (pre ++ (findRefName st.conv.zodSchemas schema).getD "" ++ "Schema", st)
    else match schema with
    | Zod.object _ shape =>
      match genShapeProps (fun a b c => generateSchemaCode fuel pre a b c) name st shape with
      | Except.error e => Except.error e
      | Except.ok (props, st1) =>
        Except.ok ("z.object(\x7b\n" ++ indentOne (String.intercalate ",\n" props) ++
          "\n\x7d)", st1)
    | Zod.array _ e =>
      match generateSchemaCode fuel pre st e (name ++ ".element") with
      | Except.error err => Except.error err
      | Except.ok (code, st1) => Except.ok ("z.array(" ++ code ++ ")", st1)
    | Zod.union _ opts =>
      match genUnionOpts (fun a b c => generateSchemaCode fuel pre a b c) name st opts 0 with
      | Except.error e => Except.error e
      | Except.ok (codes, st1) =>
        Except.ok ("z.union([" ++ String.intercalate ", " codes ++ "])", st1)
    | Zod.str _ checks =>
      match renderChecks "z.string()" checks with
      | Except.error e => Except.error e
      | Except.ok code => Except.ok (code, st)
    | Zod.num _ => Except.ok ("z.number()", st)
    | Zod.bool _ => Except.ok ("z.boolean()", st)
    | Zod.enum _ values =>
      if values.length == 1 then
        Except.ok ("z.literal(\"" ++ values.headD "" ++ "\")", st)
      else
        Except.ok ("z.enum([" ++
          String.intercalate ", " (values.map (fun v => "\"" ++ v ++ "\"")) ++ "])", st)
    | Zod.lit _ v => Except.ok ("z.literal(" ++ litText v ++ ")", st)
    | Zod.nullable _ i =>
      match generateSchemaCode fuel pre st i name with
      | Except.error e => Except.error e
      | Except.ok (code, st1) => Except.ok (code ++ ".nullable()", st1)
    | Zod.optional _ i =>
      match generateSchemaCode fuel pre st i name with
      | Except.error e => Except.error e
      | Except.ok (code, st1) => Except.ok (code ++ ".optional()", st1)
    | Zod.lazy _ body =>
      match findRefName st.conv.zodSchemas schema with
      | some rn =>
        if st.generating.contains rn then
          Except.ok ("z.lazy(() => " ++ pre ++ rn ++ "Schema)", st)
        else if !(st.generated.contains rn) then
          Except.ok ("z.lazy(() => " ++ pre ++ rn ++ "Schema)", st)
        else Except.ok (pre ++ rn ++ "Schema", st)
      | none =>
        let got := runGetter fuel body st.conv
        match generateSchemaCode fuel pre (setConv st got.2) got.1 name with
        | Except.error e => Except.error e
        | Except.ok (code, st1) => Except.ok ("z.lazy(() => " ++ code ++ ")", st1)
    | Zod.never _ => Except.ok ("z.never()", st)
    | Zod.unknown _ => Except.ok ("z.unknown()", st)

/-- Build the dependency map over a snapshot of the registry entries. -/
def buildDepMap (fuel : Nat) (st : ConvState) (entries : List (String × Zod)) :
    DepMap × ConvState :=
  entries.foldl
    (fun acc kv =>
      let r := getReferencingSchemaNames fuel acc.2 kv.2
      (acc.1 ++ [(kv.1, r.1)], r.2))
    ([], st)

/-- Declaration-emission loop of `generateCode`: for each sequenced name
mark it in progress, render (expanding a top-level lazy through its
getter first), then mark it fully generated and emit its declaration.
A thrown render error aborts the whole run. -/
def genDecls (fuel : Nat) (pre : String) :
    GenState → List String → Except String (List String × GenState)
  | st, [] => Except.ok ([], st)
  | st, name :: rest =>
    if st.generating.contains name then
      match genDecls fuel pre st rest with
      | Except.error e => Except.error e
      | Except.ok (ds, st1) => Except.ok ("" :: ds, st1)
    else
      let st1 := addGenerating st name
      let schema := (lookupKV st1.conv.zodSchemas name).getD (Zod.unknown 0)
      let r :=
        match schema with
        | Zod.lazy _ body =>
          let got := runGetter fuel body st1.conv
          generateSchemaCode fuel pre (setConv st1 got.2) got.1 name
        | _ => generateSchemaCode fuel pre st1 schema name
      match r with
      | Except.error e => Except.error e
      | Except.ok (code, st2) =>
        let st3 := addGenerated (removeGenerating st2 name) name
        match genDecls fuel pre st3 rest with
        | Except.error e => Except.error e
        | Except.ok (ds, st4) =>
          Except.ok (("export const " ++ pre ++ name ++ "Schema = " ++ code ++ ";") :: ds, st4)

/-- `generateCode()`: derive the dependency map, sequence the names,
emit each declaration, filter out skipped entries, and join them under
the fixed preamble. -/
def generateCode (fuel : Nat) (pre : String) (st0 : GenState) : Except String String :=
  let dm := buildDepMap fuel st0.conv st0.conv.zodSchemas
  let names := (generateSchemaSequenceFrom dm.1).getD []
  match genDecls fuel pre (setConv st0 dm.2) names with
  | Except.error e => Except.error e
  | Except.ok (ds, _) =>
    Except.ok ("import \x7b z \x7d from \x27zod\x27;\n\n" ++
      String.intercalate "\n\n" (ds.filter (fun s => !(s == ""))))

/-- The exported `codegen(spec, prefix)`: convert the spec, then generate
code from the resulting registry. -/
def codegen (spec : List (String × Option OpenAPISchema)) (pre : String) (fuel : Nat) :
    Except String String :=
  let st := runConvert (initState spec)
  generateCode fuel pre ⟨st, [], []⟩

/-! ### Concrete inputs from the specification's examples and tests -/

def objSch (props : List (String × Option OpenAPISchema)) (req : List String) : OpenAPISchema :=
  .mk (some "object") none none (some props) (some req) none none none none none

def strSch : OpenAPISchema :=
  .mk (some "string") none none none none none none none none none

def intSch : OpenAPISchema :=
  .mk (some "integer") none none none none none none none none none

def refSch (r : String) : OpenAPISchema :=
  .mk none none none none none none none none none (some r)

def strEnumSch (vs : List String) : OpenAPISchema :=
  .mk (some "string") none (some vs) none none none none none none none

def oneOfSch (l : List OpenAPISchema) : OpenAPISchema :=
  .mk none none none none none none none (some l) none none

def anyOfSch (l : List OpenAPISchema) : OpenAPISchema :=
  .mk none none none none none none none none (some l) none

/-- The specification's ordering example: `A` requires property `b`
referencing `B`, and `B` is declared after `A`. -/
def specAB : List (String × Option OpenAPISchema) :=
  [("A", some (objSch [("b", some (refSch "#/components/schemas/B"))] ["b"])),
   ("B", some (objSch [("name", some strSch)] []))]

/-- The repository test input "generates union schema with discriminator":
a `oneOf` of two object options sharing the single-valued discriminant
key `kind`. -/
def discSpec : List (String × Option OpenAPISchema) :=
  [("User", some (oneOfSch
    [objSch [("id", some intSch), ("kind", some (strEnumSch ["user"])),
             ("name", some strSch)] ["id", "kind"],
     objSch [("id", some intSch), ("kind", some (strEnumSch ["systemuser"])),
             ("system", some strSch)] ["id", "kind"]]))]

/-! ### Statement-side definitions for the claims -/

/-- Modelled from the spec: the object-conversion rule stated directly —
convert each declared property in source order, skipping undefined
values, leaving required names unwrapped and wrapping every other
property in Optional. -/
def convertPropsSpec (cv : OpenAPISchema → ConvState → Zod × ConvState) (req : List String) :
    List (String × Option OpenAPISchema) → ConvState → List (String × Zod) × ConvState
  | [], st => ([], st)
  | (_, none) :: rest, st => convertPropsSpec cv req rest st
  | (k, some v) :: rest, st =>
    let fz := cv v st
    let entry :=
      if req.contains k then (fz.1, fz.2)
      else (Zod.optional fz.2.nextId fz.1, bumpId fz.2)
    let rem := convertPropsSpec cv req rest entry.2
    ((k, entry.1) :: rem.1, rem.2)

/-- Modelled from the spec: the text a single recognised string check
contributes to the rendered chain. -/
def emitCheckSpec : StrCheck → String
  | StrCheck.min v => ".min(" ++ toString v ++ ")"
  | StrCheck.max v => ".max(" ++ toString v ++ ")"
  | StrCheck.date => ".date()"
  | StrCheck.other _ => ""

/-- Does the check list contain an unrecognised kind? -/
def hasOther (l : List StrCheck) : Bool :=
  l.any (fun c => match c with | StrCheck.other _ => true | _ => false)

/-- Generator state for the identity-dedup contrast: the registry holds
`A` (a plain string, allocation 1) and `B` (an object, allocation 2)
whose property `f` is a *distinct* allocation 3 that is structurally
equal to `A`'s value; `A` is fully generated, `B` in progress. -/
def stDistinct : GenState :=
  ⟨⟨[], [("A", Zod.str 1 []), ("B", Zod.object 2 [("f", Zod.str 3 [])])], [], 4⟩,
   ["A"], ["B"]⟩

/-- As `stDistinct`, but `B`'s property `f` *is* `A`'s registry value
(the same allocation 1, i.e. reference equality holds). -/
def stShared : GenState :=
  ⟨⟨[], [("A", Zod.str 1 []), ("B", Zod.object 2 [("f", Zod.str 1 [])])], [], 4⟩,
   ["A"], ["B"]⟩

/-- Empty generator state (empty registry). -/
def stEmpty : GenState := ⟨⟨[], [], [], 0⟩, [], []⟩

/-- Generator state whose registry holds one string schema carrying an
unrecognised check kind. -/
def stBadCheck : GenState :=
  ⟨⟨[], [("S", Zod.str 0 [StrCheck.other "email"])], [], 1⟩, [], []⟩

/-- A string schema carrying both an enum and `nullable: true`. -/
def strEnumNullable : OpenAPISchema :=
  .mk (some "string") (some true) (some ["a", "b"]) none none none none none none none

/-- Modelled from the spec: the full text contributed by a check list,
in recorded order. -/
def chainText : List StrCheck → String
  | [] => ""
  | c :: rest => emitCheckSpec c ++ chainText rest

/-! ### Claim theorems -/

/-- C9: for every `$ref` whose trailing path segment names a schema
absent from the input registry (and not already cached), conversion
appends a diagnostic warning, substitutes Unknown, and returns normally
— the converter's type has no failure outcome, so an unresolved
reference is never fatal. -/
theorem c9_unresolved_ref_warns_unknown (fuel : Nat) (s : OpenAPISchema) (st : ConvState)
    (r : String) (h1 : s.refKey = some r)
    (h2 : lookupKV st.zodSchemas ((splitChar '/' r).getLastD "") = none)
    (h3 : (lookupKV st.spec ((splitChar '/' r).getLastD "")).bind (fun x => x) = none) :
    convertSchema (fuel + 1) s st =
      (Zod.unknown st.nextId,
       ⟨st.spec, st.zodSchemas,
        st.warnings ++
          ["Warning: Referenced schema \"" ++ (splitChar '/' r).getLastD "" ++
           "\" not found in spec"],
        st.nextId + 1⟩) := by
  simp only [List.getLastD_eq_getLast?] at h2 h3
  simp [convertSchema, h1, handleRef, h2, h3, allocZ, addWarn, bumpId]

/-- Witness for C9 at a concrete unresolvable reference. -/
theorem c9_witness :
    convertSchema 1 (refSch "#/components/schemas/Missing") (initState []) =
      (Zod.unknown 0,
       ⟨[], [], ["Warning: Referenced schema \"Missing\" not found in spec"], 1⟩) := by
  have h := c9_unresolved_ref_warns_unknown 0 (refSch "#/components/schemas/Missing")
    (initState []) "#/components/schemas/Missing" rfl rfl rfl
  simpa using h

/-- C7 (amended): `nullable: true` wraps the base conversion in an outer
Nullable for object, array, enum-free string, number/integer and boolean
schemas; a string schema carrying an enum (like the branches dispatched
before the typed ones) returns before the nullable check, so its
conversion ignores `nullable` entirely. -/
theorem c7_nullable_wrapper_amended :
    (∀ fuel s st,
      s.refKey = none → s.allOf = none → s.anyOf = none → s.oneOf = none →
      s.nullable = some true →
      (s.type = some "object" ∨ s.type = some "array" ∨
       (s.type = some "string" ∧ s.enumVals = none) ∨
       s.type = some "number" ∨ s.type = some "integer" ∨ s.type = some "boolean") →
      convertSchema (fuel + 1) s st =
        (Zod.nullable (convertSchema (fuel + 1) (clearNullable s) st).2.nextId
           (convertSchema (fuel + 1) (clearNullable s) st).1,
         bumpId (convertSchema (fuel + 1) (clearNullable s) st).2)) ∧
    (∀ fuel s st,
      s.refKey = none → s.allOf = none → s.anyOf = none → s.oneOf = none →
      s.type = some "string" → (s.enumVals).isSome →
      convertSchema (fuel + 1) s st = convertSchema (fuel + 1) (clearNullable s) st) := by
  constructor
  · intro fuel s st h1 h2 h3 h4 h5 h6
    obtain ⟨t, nb, en, p, rq, it, ao, oo, an, rf⟩ := s
    simp only [OpenAPISchema.refKey] at h1
    simp only [OpenAPISchema.allOf] at h2
    simp only [OpenAPISchema.anyOf] at h3
    simp only [OpenAPISchema.oneOf] at h4
    simp only [OpenAPISchema.nullable] at h5
    simp only [OpenAPISchema.type, OpenAPISchema.enumVals] at h6
    subst h1 h2 h3 h4 h5
    rcases h6 with h | h | ⟨h, he⟩ | h | h | h
    · subst h; rfl
    · subst h; rfl
    · subst h; subst he; rfl
    · subst h; rfl
    · subst h; rfl
    · subst h; rfl
  · intro fuel s st h1 h2 h3 h4 h5 h6
    obtain ⟨t, nb, en, p, rq, it, ao, oo, an, rf⟩ := s
    simp only [OpenAPISchema.refKey] at h1
    simp only [OpenAPISchema.allOf] at h2
    simp only [OpenAPISchema.anyOf] at h3
    simp only [OpenAPISchema.oneOf] at h4
    simp only [OpenAPISchema.type] at h5
    simp only [OpenAPISchema.enumVals, Option.isSome_iff_exists] at h6
    obtain ⟨vs, hvs⟩ := h6
    subst h1 h2 h3 h4 h5 hvs
    rfl

/-- C7 counterexample: a string schema with an enum and `nullable: true`
converts to a bare Enum, not to an outer Nullable wrapper, refuting the
claim for that node kind. -/
theorem c7_counterexample_enum_ignores_nullable :
    (convertSchema 5 strEnumNullable (initState [])).1 = Zod.enum 0 ["a", "b"] ∧
    isNullableNode (convertSchema 5 strEnumNullable (initState [])).1 = false :=
  ⟨rfl, rfl⟩

/-- Witness for the amended C7 at a concrete nullable boolean schema. -/
theorem c7_witness :
    convertSchema 1 (.mk (some "boolean") (some true) none none none none none none none none)
        (initState []) =
      (Zod.nullable 1 (Zod.bool 0), ⟨[], [], [], 2⟩) := by
  have h := c7_nullable_wrapper_amended.1 0
    (.mk (some "boolean") (some true) none none none none none none none none)
    (initState []) rfl rfl rfl rfl rfl
    (Or.inr (Or.inr (Or.inr (Or.inr (Or.inr rfl)))))
  exact h

/-- The check-rendering loop appends exactly the chain of recognised
check texts, in recorded order, onto its accumulator. -/
theorem renderChecks_no_other (checks : List StrCheck) :
    ∀ acc, hasOther checks = false →
      renderChecks acc checks = Except.ok (acc ++ chainText checks) := by
  induction checks with
  | nil => intro acc _; simp [renderChecks, chainText]
  | cons c rest ih =>
    intro acc h
    cases c with
    | min v =>
      simp only [hasOther, List.any_cons, Bool.or_eq_false_iff] at h
      simp [renderChecks, chainText, emitCheckSpec,
        ih _ (by simp [hasOther, h.2]), String.append_assoc]
    | max v =>
      simp only [hasOther, List.any_cons, Bool.or_eq_false_iff] at h
      simp [renderChecks, chainText, emitCheckSpec,
        ih _ (by simp [hasOther, h.2]), String.append_assoc]
    | date =>
      simp only [hasOther, List.any_cons, Bool.or_eq_false_iff] at h
      simp [renderChecks, chainText, emitCheckSpec,
        ih _ (by simp [hasOther, h.2]), String.append_assoc]
    | other k => simp [hasOther] at h

/-- The check-rendering loop throws on the first unrecognised check kind. -/
theorem renderChecks_other (checks : List StrCheck) :
    ∀ acc, hasOther checks = true →
      ∃ k, renderChecks acc checks = Except.error ("unsupported check kind: " ++ k) := by
  induction checks with
  | nil => intro acc h; simp [hasOther] at h
  | cons c rest ih =>
    intro acc h
    cases c with
    | min v =>
      simp only [hasOther, List.any_cons] at h
      exact ih _ (by simpa [hasOther] using h)
    | max v =>
      simp only [hasOther, List.any_cons] at h
      exact ih _ (by simpa [hasOther] using h)
    | date =>
      simp only [hasOther, List.any_cons] at h
      exact ih _ (by simpa [hasOther] using h)
    | other k => exact ⟨k, by simp [renderChecks]⟩

/-- C8 (amended): a String node's recorded constraints are emitted as a
chain of `.min(n)` / `.max(n)` / `.date()` in their *recorded* order
(not a canonical one), and an unrecognised constraint kind is fatal:
the render throws and the entire generation returns that error with no
partial output. -/
theorem c8_string_checks_amended :
    (∀ fuel pre st i checks nm,
      findRefName st.conv.zodSchemas (Zod.str i checks) = none →
      hasOther checks = false →
      generateSchemaCode (fuel + 1) pre st (Zod.str i checks) nm =
        Except.ok ("z.string()" ++ chainText checks, st)) ∧
    (∀ fuel pre st i checks nm,
      findRefName st.conv.zodSchemas (Zod.str i checks) = none →
      hasOther checks = true →
      ∃ k, generateSchemaCode (fuel + 1) pre st (Zod.str i checks) nm =
        Except.error ("unsupported check kind: " ++ k)) ∧
    generateCode 10 "" stBadCheck = Except.error "unsupported check kind: email" := by
  refine ⟨?_, ?_, rfl⟩
  · intro fuel pre st i checks nm hf hno
    simp [generateSchemaCode, dedupGuard, hf, renderChecks_no_other checks _ hno]
  · intro fuel pre st i checks nm hf hyes
    obtain ⟨k, hk⟩ := renderChecks_other checks "z.string()" hyes
    exact ⟨k, by simp [generateSchemaCode, dedupGuard, hf, hk]⟩

/-- C8 counterexample: checks stored as max-then-min render in exactly
that stored order, not in the claimed fixed min-max-date order. -/
theorem c8_counterexample_stored_order :
    generateSchemaCode 3 "" stEmpty (Zod.str 0 [StrCheck.max 5, StrCheck.min 1]) "S" =
      Except.ok ("z.string().max(5).min(1)", stEmpty) ∧
    "z.string().max(5).min(1)" ≠ "z.string().min(1).max(5)" :=
  ⟨rfl, by decide⟩

/-- Witness for the amended C8 at a concrete check list. -/
theorem c8_witness :
    generateSchemaCode 1 "" stEmpty
        (Zod.str 0 [StrCheck.min 1, StrCheck.max 5, StrCheck.date]) "S" =
      Except.ok ("z.string().min(1).max(5).date()", stEmpty) := by
  have h := c8_string_checks_amended.1 0 "" stEmpty 0
    [StrCheck.min 1, StrCheck.max 5, StrCheck.date] "S" rfl rfl
  exact h

/-- The member-conversion loop yields one converted schema per member. -/
theorem convertSchemaList_length (cv : OpenAPISchema → ConvState → Zod × ConvState) :
    ∀ l st, (convertSchemaList cv l st).1.length = l.length := by
  intro l
  induction l with
  | nil => intro st; rfl
  | cons x rest ih => intro st; simp [convertSchemaList, ih]

/-- C4: `anyOf` and `oneOf` compositions are dispatched to the very same
handler (inclusive union, no exclusivity), and that handler converts the
members in source order, yielding Never for 0 members, the single
conversion unwrapped for 1 member, and a Union of all in-order member
conversions for 2 or more. -/
theorem c4_anyOf_oneOf_identical_union :
    (∀ fuel (l : List OpenAPISchema) st,
      convertSchema (fuel + 1) (anyOfSch l) st = convertSchema (fuel + 1) (oneOfSch l) st) ∧
    (∀ cv st, handleAnyOf cv [] st = (Zod.never st.nextId, bumpId st)) ∧
    (∀ cv x st, handleAnyOf cv [x] st = cv x st) ∧
    (∀ cv x y rest st,
      handleAnyOf cv (x :: y :: rest) st =
        (Zod.union (convertSchemaList cv (x :: y :: rest) st).2.nextId
           (convertSchemaList cv (x :: y :: rest) st).1,
         bumpId (convertSchemaList cv (x :: y :: rest) st).2) ∧
      (convertSchemaList cv (x :: y :: rest) st).1.length = rest.length + 2) := by
  refine ⟨?_, ?_, ?_, ?_⟩
  · intro fuel l st; rfl
  · intro cv st; rfl
  · intro cv x st; simp [handleAnyOf, convertSchemaList]
  · intro cv x y rest st
    refine ⟨?_, ?_⟩
    · simp [handleAnyOf, convertSchemaList]
    · simpa using convertSchemaList_length cv (x :: y :: rest) st

/-- Spreading an empty source over a record is the identity. -/
theorem spreadMerge_nil (a : List (String × α)) : spreadMerge a [] = a := by
  simp [spreadMerge, lookupKV]

/-- The `allOf` merge loop equals the filtered presentation: a spread
fold of the object members' property maps and the concatenation of
their required lists. -/
theorem allOfFold_eq (l : List OpenAPISchema) :
    ∀ (p : List (String × Option OpenAPISchema)) (r : List String),
      l.foldl
        (fun acc s =>
          if isObjectSchema s then
            let p := match s.properties with
              | some ps => spreadMerge acc.1 ps
              | none => acc.1
            let r := match s.required with
              | some rs => acc.2 ++ rs
              | none => acc.2
            (p, r)
          else acc) (p, r) =
      ((l.filter isObjectSchema).foldl
        (fun a s => spreadMerge a (s.properties.getD [])) p,
       r ++ ((l.filter isObjectSchema).map (fun s => s.required.getD [])).flatten) := by
  induction l with
  | nil => intro p r; simp
  | cons s rest ih =>
    intro p r
    by_cases hobj : isObjectSchema s = true
    · cases hp : s.properties with
      | none =>
        cases hr : s.required with
        | none => simp [hobj, hp, hr, ih, spreadMerge_nil]
        | some rs => simp [hobj, hp, hr, ih, spreadMerge_nil]
      | some ps =>
        cases hr : s.required with
        | none => simp [hobj, hp, hr, ih]
        | some rs => simp [hobj, hp, hr, ih]
    · simp only [Bool.not_eq_true] at hobj
      simp [hobj, ih]

/-- C5: `allOf` structurally merges only the object-typed members —
the merged property map is the spread-union of the members' property
maps (later members overwriting shared keys), the merged required list
is the concatenation of the members' required lists (duplicates kept),
non-object members are dropped — and the merged object is then converted
as an ordinary object schema (with no `nullable` of its own). -/
theorem c5_allOf_merges_objects (cv : OpenAPISchema → ConvState → Zod × ConvState)
    (l : List OpenAPISchema) (st : ConvState) :
    handleAllOf cv l st =
      convertObjectSchema cv
        (.mk (some "object") none none
          (some ((l.filter isObjectSchema).foldl
            (fun a s => spreadMerge a (s.properties.getD [])) []))
          (some (((l.filter isObjectSchema).map (fun s => s.required.getD [])).flatten))
          none none none none none) st := by
  unfold handleAllOf
  rw [allOfFold_eq]
  simp

/-- Record assignment of a fresh key appends it. -/
theorem setkv_not_mem (l : List (String × α)) (k : String) (v : α)
    (h : k ∉ l.map Prod.fst) : setkv l k v = l ++ [(k, v)] := by
  induction l with
  | nil => rfl
  | cons kv rest ih =>
    simp only [List.map_cons, List.mem_cons, not_or] at h
    obtain ⟨h1, h2⟩ := h
    simp [setkv, (by simpa [eq_comm] using h1 : ¬ kv.1 = k), ih h2]

/-- The object-shape building loop equals the specification-side
recursion once the accumulator's keys are disjoint from the remaining
declared property names (in particular for the empty accumulator, given
the JSON guarantee that property names are unique). -/
theorem buildShape_eq (cv : OpenAPISchema → ConvState → Zod × ConvState) (req : List String) :
    ∀ (props : List (String × Option OpenAPISchema)) (acc : List (String × Zod))
      (st : ConvState),
      (props.map Prod.fst).Nodup →
      (∀ k, k ∈ props.map Prod.fst → k ∉ acc.map Prod.fst) →
      buildShape cv req props (acc, st) =
        (acc ++ (convertPropsSpec cv req props st).1, (convertPropsSpec cv req props st).2) := by
  intro props
  induction props with
  | nil => intro acc st _ _; simp [buildShape, convertPropsSpec]
  | cons kv rest ih =>
    intro acc st hnd hdisj
    obtain ⟨k, v⟩ := kv
    cases v with
    | none =>
      simp only [List.map_cons, List.nodup_cons] at hnd
      simp only [buildShape, convertPropsSpec]
      exact ih acc st hnd.2 (fun j hj => hdisj j (by simp [hj]))
    | some v =>
      simp only [List.map_cons, List.nodup_cons] at hnd
      have hk : k ∉ acc.map Prod.fst := hdisj k (by simp)
      simp only [buildShape, convertPropsSpec]
      rw [setkv_not_mem _ _ _ hk]
      rw [ih]
      · simp [List.append_assoc]
      · exact hnd.2
      · intro j hj
        simp only [List.map_append, List.mem_append, not_or]
        refine ⟨hdisj j (by simp [hj]), ?_⟩
        simp only [List.map_cons, List.map_nil, List.mem_singleton]
        intro hjk
        exact hnd.1 (hjk ▸ hj)

/-- C6: every declared property with a defined schema converts in source
order — unwrapped when its name is required, wrapped in Optional
otherwise — and the converted object lists exactly those properties in
the declared order (then applies the outer nullable wrapper if any). -/
theorem c6_object_required_optional_order (cv : OpenAPISchema → ConvState → Zod × ConvState)
    (s : OpenAPISchema) (st : ConvState)
    (h : ((s.properties.getD []).map Prod.fst).Nodup) :
    convertObjectSchema cv s st =
      (let ps := convertPropsSpec cv (s.required.getD []) (s.properties.getD []) st
       match s.nullable with
       | some true => (Zod.nullable (ps.2.nextId + 1) (Zod.object ps.2.nextId ps.1),
                       bumpId (bumpId ps.2))
       | _ => (Zod.object ps.2.nextId ps.1, bumpId ps.2)) := by
  have hb := buildShape_eq cv (s.required.getD []) (s.properties.getD []) [] st h (by simp)
  unfold convertObjectSchema
  rw [hb]
  cases hn : s.nullable with
  | none => simp [allocZ, bumpId]
  | some b =>
    cases b with
    | false => simp [allocZ, bumpId]
    | true => simp [allocZ, bumpId]

/-- Witness for C6 at a concrete two-property object schema. -/
theorem c6_witness :
    convertObjectSchema (fun t u => convertSchema 3 t u)
        (objSch [("a", some strSch), ("b", some strSch)] ["a"]) (initState []) =
      (Zod.object 3 [("a", Zod.str 0 []), ("b", Zod.optional 2 (Zod.str 1 []))],
       ⟨[], [], [], 4⟩) := by
  have h := c6_object_required_optional_order (fun t u => convertSchema 3 t u)
    (objSch [("a", some strSch), ("b", some strSch)] ["a"]) (initState []) (by decide)
  exact h

/-- C2: a Lazy node identified (by reference) as a named registry schema
renders as the deferred expression `z.lazy(() => <name>Schema)` whenever
the name is in progress or not yet emitted, and as the bare identifier
`<name>Schema` once it is fully generated; and on the ordering example
(`A` requires `b: $ref B`, `B` declared after `A`) the pipeline emits
`BSchema` before `ASchema`, with `A`'s `b` field a direct identifier and
no deferred wrapper anywhere. -/
theorem c2_lazy_deferred_or_direct :
    (∀ fuel pre (st : GenState) i body rn nm,
      findRefName st.conv.zodSchemas (Zod.lazy i body) = some rn →
      generateSchemaCode (fuel + 1) pre st (Zod.lazy i body) nm =
        if st.generated.contains rn && !(st.generating.contains rn) then
          Except.ok (pre ++ rn ++ "Schema", st)
        else Except.ok ("z.lazy(() => " ++ pre ++ rn ++ "Schema)", st)) ∧
    codegen specAB "" 20 =
      Except.ok "import \x7b z \x7d from \x27zod\x27;\n\nexport const BSchema = z.object(\x7b\n  name: z.string().optional()\n\x7d);\n\nexport const ASchema = z.object(\x7b\n  b: BSchema\n\x7d);" := by
  refine ⟨?_, rfl⟩
  intro fuel pre st i body rn nm hf
  by_cases hg : rn ∈ st.generated <;> by_cases hc : rn ∈ st.generating <;>
    simp [generateSchemaCode, dedupGuard, hf, hg, hc]

/-- Witness for C2's rendering rule at a concrete not-yet-emitted name. -/
theorem c2_witness :
    generateSchemaCode 3 "" ⟨⟨[], [("X", Zod.lazy 0 strSch)], [], 1⟩, [], []⟩
        (Zod.lazy 0 strSch) "X" =
      Except.ok ("z.lazy(() => XSchema)",
        ⟨⟨[], [("X", Zod.lazy 0 strSch)], [], 1⟩, [], []⟩) := by
  have h := c2_lazy_deferred_or_direct.1 2 "" ⟨⟨[], [("X", Zod.lazy 0 strSch)], [], 1⟩, [], []⟩
    0 strSch "X" "X" rfl
  exact h

/-- C10: sharing is decided by object identity, never structure — a
registry name reference is only possible when the registry entry has the
schema's own allocation identifier (reference equality), and concretely a
sub-schema structurally equal to the generated entry `A` but a distinct
allocation is re-rendered inline, while the very same allocation renders
as the identifier `ASchema`. -/
theorem c10_dedup_is_reference_identity :
    (∀ (schemas : List (String × Zod)) (z : Zod) n,
      findRefName schemas z = some n → ∃ e, (n, e) ∈ schemas ∧ e.id = z.id) ∧
    stripId (Zod.str 3 []) = stripId (Zod.str 1 []) ∧
    Zod.str 3 [] ≠ Zod.str 1 [] ∧
    generateSchemaCode 5 "" stDistinct (Zod.object 2 [("f", Zod.str 3 [])]) "B" =
      Except.ok ("z.object(\x7b\n  f: z.string()\n\x7d)", stDistinct) ∧
    generateSchemaCode 5 "" stShared (Zod.object 2 [("f", Zod.str 1 [])]) "B" =
      Except.ok ("z.object(\x7b\n  f: ASchema\n\x7d)", stShared) := by
  refine ⟨?_, rfl, by simp, rfl, rfl⟩
  intro schemas z n h
  simp only [findRefName, Option.map_eq_some'] at h
  obtain ⟨p, hp, hn⟩ := h
  have hm := List.mem_of_find?_eq_some hp
  have hpred := List.find?_some hp
  refine ⟨p.2, ?_, by simpa using hpred⟩
  exact hn ▸ (by simpa using hm)

/-- Witness for C10's identity characterisation at a concrete registry. -/
theorem c10_witness :
    ∃ e, ("A", e) ∈ [("A", Zod.str 1 [])] ∧ e.id = (Zod.str 1 []).id :=
  c10_dedup_is_reference_identity.1 [("A", Zod.str 1 [])] (Zod.str 1 []) "A" rfl

/-- C3 (divergence record): on the repository test input with a shared
single-valued `kind` discriminant, the generator emits a plain
`z.union(...)`; the repository's own test snapshot expects
`z.discriminatedUnion("kind", ...)`. -/
theorem c3_union_rendered_plain_not_discriminated :
    codegen discSpec "" 20 =
      Except.ok "import \x7b z \x7d from \x27zod\x27;\n\nexport const UserSchema = z.union([z.object(\x7b\n  id: z.number(),\n  kind: z.literal(\"user\"),\n  name: z.string().optional()\n\x7d), z.object(\x7b\n  id: z.number(),\n  kind: z.literal(\"systemuser\"),\n  system: z.string().optional()\n\x7d)]);" ∧
    ("import \x7b z \x7d from \x27zod\x27;\n\nexport const UserSchema = z.union([z.object(\x7b\n  id: z.number(),\n  kind: z.literal(\"user\"),\n  name: z.string().optional()\n\x7d), z.object(\x7b\n  id: z.number(),\n  kind: z.literal(\"systemuser\"),\n  system: z.string().optional()\n\x7d)]);" : String) ≠ "import \x7b z \x7d from \x27zod\x27;\n\nexport const UserSchema = z.discriminatedUnion(\"kind\", [z.object(\x7b\n  id: z.number(),\n  kind: z.literal(\"user\"),\n  name: z.string().optional()\n\x7d), z.object(\x7b\n  id: z.number(),\n  kind: z.literal(\"systemuser\"),\n  system: z.string().optional()\n\x7d)]);" :=
  ⟨rfl, by decide⟩

/-- A successful lookup means the key occurs among the keys. -/
theorem lookupKV_mem : ∀ {m : List (String × α)} {k : String} {v : α},
    lookupKV m k = some v → k ∈ m.map Prod.fst := by
  intro m
  induction m with
  | nil => intro k v h; simp [lookupKV] at h
  | cons kv rest ih =>
    intro k v h
    obtain ⟨k', w⟩ := kv
    simp only [lookupKV] at h
    by_cases he : k' == k
    · have : k' = k := by simpa using he
      simp [this]
    · rw [if_neg he] at h
      simp only [List.map_cons, List.mem_cons]
      exact Or.inr (ih h)

/-- `Map.delete` yields a sublist of the original entry list. -/
theorem eraseKey_sublist : ∀ (m : List (String × α)) (k : String),
    List.Sublist (eraseKey m k) m := by
  intro m k
  induction m with
  | nil => simp [eraseKey]
  | cons kv rest ih =>
    obtain ⟨k', w⟩ := kv
    simp only [eraseKey]
    by_cases he : k' == k
    · rw [if_pos he]; exact List.sublist_cons_self _ _
    · rw [if_neg he]; exact ih.cons₂ _

/-- The keys of `Map.delete` are the erasure of the key list. -/
theorem eraseKey_keys : ∀ (m : List (String × α)) (k : String),
    (eraseKey m k).map Prod.fst = (m.map Prod.fst).erase k := by
  intro m k
  induction m with
  | nil => simp [eraseKey]
  | cons kv rest ih =>
    obtain ⟨k', w⟩ := kv
    simp only [eraseKey, List.map_cons]
    rw [List.erase_cons]
    by_cases he : k' == k
    · rw [if_pos he, if_pos he]
    · rw [if_neg he, if_neg he]
      simp [ih]

/-- Deleting a present key shrinks the map by exactly one entry. -/
theorem eraseKey_length : ∀ (m : List (String × α)) (k : String),
    k ∈ m.map Prod.fst → (eraseKey m k).length + 1 = m.length := by
  intro m k
  induction m with
  | nil => intro h; simp at h
  | cons kv rest ih =>
    intro h
    obtain ⟨k', w⟩ := kv
    simp only [eraseKey]
    by_cases he : k' == k
    · rw [if_pos he]; rfl
    · rw [if_neg he]
      simp only [List.map_cons, List.mem_cons] at h
      rcases h with h | h
      · exact absurd (by simp [h] : (k' == k) = true) he
      · simp [ih h]

/-- Splicing an element in at any position is a permutation of consing it. -/
theorem spliceInsert_perm (l : List String) (i : Nat) (a : String) :
    (spliceInsert l i a).Perm (a :: l) := by
  unfold spliceInsert
  calc List.Perm (l.take i ++ a :: l.drop i) (a :: (l.take i ++ l.drop i)) :=
        List.perm_middle
    _ = a :: l := by rw [List.take_append_drop]

/-- A dead accumulator stays dead through the dependency loop. -/
theorem depStep_foldl_none
    (f : DepMap → List String → Nat → String → Option (DepMap × List String × Nat)) :
    ∀ deps : List String, deps.foldl (depStep f) none = none := by
  intro deps
  induction deps with
  | nil => rfl
  | cons d ds ih => simp [List.foldl_cons, depStep, ih]

/-- Invariant of the dependency loop: the map only loses entries
(sublist) and every insertion into the result is balanced by a key
removed from the map (count bookkeeping). -/
theorem depFold_inv
    (f : DepMap → List String → Nat → String → Option (DepMap × List String × Nat))
    (hf : ∀ m res pos name m' res' c, f m res pos name = some (m', res', c) →
      List.Sublist m' m ∧
      ∀ k : String, res'.count k + (m'.map Prod.fst).count k
        = res.count k + (m.map Prod.fst).count k) :
    ∀ (deps : List String) (m : DepMap) (res : List String) (pos cnt : Nat)
      (m' : DepMap) (res' : List String) (pos' cnt' : Nat),
      deps.foldl (depStep f) (some (m, res, pos, cnt)) = some (m', res', pos', cnt') →
      List.Sublist m' m ∧
      ∀ k : String, res'.count k + (m'.map Prod.fst).count k
        = res.count k + (m.map Prod.fst).count k := by
  intro deps
  induction deps with
  | nil =>
    intro m res pos cnt m' res' pos' cnt' h
    simp only [List.foldl_nil, Option.some.injEq, Prod.mk.injEq] at h
    obtain ⟨rfl, rfl, rfl, rfl⟩ := h
    exact ⟨List.Sublist.refl m, fun k => rfl⟩
  | cons d ds ih =>
    intro m res pos cnt m' res' pos' cnt' h
    rw [List.foldl_cons] at h
    cases hf0 : f m res pos d with
    | none =>
      rw [show depStep f (some (m, res, pos, cnt)) d = none by simp [depStep, hf0]] at h
      rw [depStep_foldl_none] at h
      exact absurd h (by simp)
    | some out =>
      obtain ⟨m2, res2, c⟩ := out
      rw [show depStep f (some (m, res, pos, cnt)) d = some (m2, res2, pos + c, cnt + c) by
        simp [depStep, hf0]] at h
      obtain ⟨hsub2, hcnt2⟩ := hf _ _ _ _ _ _ _ hf0
      obtain ⟨hsub, hcnt⟩ := ih _ _ _ _ _ _ _ _ h
      exact ⟨hsub.trans hsub2, fun k => (hcnt k).trans (hcnt2 k)⟩

/-- Invariant of `processElement`: the map only loses entries; result
counts are balanced against removed keys; a name no longer in the map
changes nothing and contributes zero insertions; a found name leaves a
map that is within the deletion of that name. -/
theorem processElement_inv : ∀ (fuel : Nat) (m : DepMap) (res : List String) (pos : Nat)
    (name : String) (m' : DepMap) (res' : List String) (c : Nat),
    processElement fuel m res pos name = some (m', res', c) →
    List.Sublist m' m ∧
    (∀ k : String, res'.count k + (m'.map Prod.fst).count k
      = res.count k + (m.map Prod.fst).count k) ∧
    (lookupKV m name = none → (m', res', c) = (m, res, 0)) ∧
    (∀ deps, lookupKV m name = some deps → List.Sublist m' (eraseKey m name)) := by
  intro fuel
  induction fuel with
  | zero => intro m res pos name m' res' c h; simp [processElement] at h
  | succ f ih =>
    intro m res pos name m' res' c h
    cases hl : lookupKV m name with
    | none =>
      have h2 : processElement (f + 1) m res pos name = some (m, res, 0) := by
        simp [processElement, hl]
      rw [h2] at h
      simp only [Option.some.injEq, Prod.mk.injEq] at h
      obtain ⟨rfl, rfl, rfl⟩ := h
      exact ⟨List.Sublist.refl m, fun k => rfl, fun _ => rfl,
        fun deps hd => Option.noConfusion hd⟩
    | some deps =>
      cases hfold : deps.foldl (depStep (fun a b c d => processElement f a b c d))
          (some (eraseKey m name, spliceInsert res pos name, pos, 0)) with
      | none =>
        have h2 : processElement (f + 1) m res pos name = none := by
          simp [processElement, hl, hfold]
        rw [h2] at h
        exact Option.noConfusion h
      | some out =>
        obtain ⟨m2, res2, p2, c2⟩ := out
        have h2 : processElement (f + 1) m res pos name = some (m2, res2, c2 + 1) := by
          simp [processElement, hl, hfold]
        rw [h2] at h
        simp only [Option.some.injEq, Prod.mk.injEq] at h
        obtain ⟨rfl, rfl, rfl⟩ := h
        have hfa : ∀ mm rr pp nn m3 r3 c3,
            processElement f mm rr pp nn = some (m3, r3, c3) →
            List.Sublist m3 mm ∧
            ∀ k : String, r3.count k + (m3.map Prod.fst).count k
              = rr.count k + (mm.map Prod.fst).count k :=
          fun mm rr pp nn m3 r3 c3 hh =>
            ⟨(ih mm rr pp nn m3 r3 c3 hh).1, (ih mm rr pp nn m3 r3 c3 hh).2.1⟩
        obtain ⟨hsub, hcnt⟩ := depFold_inv _ hfa deps _ _ _ _ _ _ _ _ hfold
        have hmem : name ∈ m.map Prod.fst := lookupKV_mem hl
        refine ⟨hsub.trans (eraseKey_sublist m name), ?_, ?_, fun _ _ => hsub⟩
        · intro k
          have h1 := hcnt k
          have hsp : (spliceInsert res pos name).count k
              = res.count k + (if name == k then 1 else 0) := by
            rw [(spliceInsert_perm res pos name).count_eq]
            exact List.count_cons k name res
          have her : ((eraseKey m name).map Prod.fst).count k
              = (m.map Prod.fst).count k - (if name == k then 1 else 0) := by
            rw [eraseKey_keys]
            exact List.count_erase k name (m.map Prod.fst)
          have hge : (if name == k then 1 else 0) ≤ (m.map Prod.fst).count k := by
            by_cases hk : name == k
            · have hnk : name = k := by simpa using hk
              subst hnk
              simpa [hk] using List.count_pos_iff.mpr hmem
            · simp [hk]
          rw [hsp, her] at h1
          omega
        · intro h0
          exact Option.noConfusion h0

/-- The dependency loop cannot exhaust fuel while the map is smaller
than the fuel of the placement function it drives. -/
theorem depFold_some (fl : Nat)
    (f : DepMap → List String → Nat → String → Option (DepMap × List String × Nat))
    (hfS : ∀ m res pos name, m.length < fl → (f m res pos name).isSome)
    (hfSub : ∀ m res pos name m' res' c, f m res pos name = some (m', res', c) →
      List.Sublist m' m) :
    ∀ (deps : List String) (m : DepMap) (res : List String) (pos cnt : Nat),
      m.length < fl →
      ∃ m' res' pos' cnt',
        deps.foldl (depStep f) (some (m, res, pos, cnt)) = some (m', res', pos', cnt') ∧
        List.Sublist m' m := by
  intro deps
  induction deps with
  | nil =>
    intro m res pos cnt h
    exact ⟨m, res, pos, cnt, rfl, List.Sublist.refl m⟩
  | cons d ds ih =>
    intro m res pos cnt h
    have hS := hfS m res pos d h
    rw [Option.isSome_iff_exists] at hS
    obtain ⟨out, hout⟩ := hS
    obtain ⟨m2, res2, c⟩ := out
    have hsub2 := hfSub _ _ _ _ _ _ _ hout
    have hlen2 : m2.length < fl := Nat.lt_of_le_of_lt hsub2.length_le h
    obtain ⟨m', res', pos', cnt', heq, hsub⟩ := ih m2 res2 (pos + c) (cnt + c) hlen2
    refine ⟨m', res', pos', cnt', ?_, hsub.trans hsub2⟩
    rw [List.foldl_cons,
      show depStep f (some (m, res, pos, cnt)) d = some (m2, res2, pos + c, cnt + c) by
        simp [depStep, hout]]
    exact heq

/-- `processElement` succeeds (terminates without exhausting fuel)
whenever its fuel exceeds the map size. -/
theorem processElement_some : ∀ (fuel : Nat) (m : DepMap) (res : List String) (pos : Nat)
    (name : String), m.length < fuel →
    ∃ out, processElement fuel m res pos name = some out := by
  intro fuel
  induction fuel with
  | zero => intro m res pos name h; exact absurd h (Nat.not_lt_zero _)
  | succ f ih =>
    intro m res pos name h
    cases hl : lookupKV m name with
    | none => exact ⟨(m, res, 0), by simp [processElement, hl]⟩
    | some deps =>
      have hmem : name ∈ m.map Prod.fst := lookupKV_mem hl
      have hlen := eraseKey_length m name hmem
      have h1 : (eraseKey m name).length < f := by omega
      have hfS : ∀ mm rr pp nn, mm.length < f →
          (processElement f mm rr pp nn).isSome := by
        intro mm rr pp nn hh
        obtain ⟨o, ho⟩ := ih mm rr pp nn hh
        simp [ho]
      have hfSub : ∀ mm rr pp nn m3 r3 c3,
          processElement f mm rr pp nn = some (m3, r3, c3) → List.Sublist m3 mm :=
        fun mm rr pp nn m3 r3 c3 hh => (processElement_inv f mm rr pp nn m3 r3 c3 hh).1
      obtain ⟨m', res', pos', cnt', heq, _⟩ :=
        depFold_some f _ hfS hfSub deps (eraseKey m name) (spliceInsert res pos name)
          pos 0 h1
      exact ⟨(m', res', cnt' + 1), by simp [processElement, hl, heq]⟩

/-- The sequencing loop succeeds once its fuel covers the map size, and
its result's counts are the input counts plus one per remaining key. -/
theorem sequenceLoop_ok : ∀ (fuel : Nat) (m : DepMap) (res : List String),
    m.length ≤ fuel →
    ∃ r, sequenceLoop fuel m res = some r ∧
      ∀ k : String, r.count k = res.count k + ((m.map Prod.fst).count k) := by
  intro fuel
  induction fuel with
  | zero =>
    intro m res h
    cases m with
    | nil => exact ⟨res, rfl, by simp⟩
    | cons e rest => simp at h
  | succ f ih =>
    intro m res h
    cases m with
    | nil => exact ⟨res, rfl, by simp⟩
    | cons e rest =>
      obtain ⟨nm, deps⟩ := e
      have hl : lookupKV ((nm, deps) :: rest) nm = some deps := by simp [lookupKV]
      have hlt : ((nm, deps) :: rest).length < ((nm, deps) :: rest).length + 1 :=
        Nat.lt_succ_self _
      obtain ⟨out, hout⟩ := processElement_some _ _ res res.length nm hlt
      obtain ⟨m1, res1, c1⟩ := out
      obtain ⟨hsub, hcnt, hnone, hsubE⟩ :=
        processElement_inv _ _ _ _ _ _ _ _ hout
      have hsubE2 := hsubE deps hl
      have herase : eraseKey ((nm, deps) :: rest) nm = rest := by simp [eraseKey]
      have hm1len : m1.length ≤ rest.length := by
        have hle := hsubE2.length_le
        rw [herase] at hle
        exact hle
      have hlef : m1.length ≤ f := by
        simp only [List.length_cons] at h
        omega
      obtain ⟨r, hr, hrc⟩ := ih m1 res1 hlef
      refine ⟨r, ?_, ?_⟩
      · simp only [sequenceLoop]
        rw [hout]
        exact hr
      · intro k
        rw [hrc k, hcnt k]

/-- C1: for every finite dependency map (cycles and self-loops
included), the sequencer terminates — the fuel bound is never hit — and
returns a list holding every key of the consumed map exactly once; a
name already removed from the map (reached a second time via another
path or a self-edge) contributes zero insertions and changes nothing. -/
theorem c1_sequencer_terminates_each_key_once :
    (∀ m : DepMap, (m.map Prod.fst).Nodup →
      ∃ r, generateSchemaSequenceFrom m = some r ∧
        r.Perm (m.map Prod.fst) ∧
        (∀ k, k ∈ m.map Prod.fst → r.count k = 1) ∧
        (∀ k, k ∉ m.map Prod.fst → r.count k = 0)) ∧
    (∀ (fuel : Nat) (m : DepMap) (res : List String) (pos : Nat) (name : String),
      lookupKV m name = none →
      processElement (fuel + 1) m res pos name = some (m, res, 0)) := by
  constructor
  · intro m hnd
    obtain ⟨r, hr, hrc⟩ := sequenceLoop_ok m.length m [] (Nat.le_refl _)
    have hcount : ∀ k : String, r.count k = (m.map Prod.fst).count k := by
      intro k
      rw [hrc k]
      simp
    refine ⟨r, hr, List.perm_iff_count.mpr hcount, ?_, ?_⟩
    · intro k hk
      rw [hcount k]
      exact List.count_eq_one_of_mem hnd hk
    · intro k hk
      rw [hcount k]
      exact List.count_eq_zero_of_not_mem hk
  · intro fuel m res pos name h
    simp [processElement, h]

/-- Witness for C1 at a concrete map with a 2-cycle and a self-loop. -/
theorem c1_witness :
    ∃ r, generateSchemaSequenceFrom [("a", ["b", "a"]), ("b", ["a"]), ("c", ["c"])]
        = some r ∧
      r.Perm (([("a", ["b", "a"]), ("b", ["a"]), ("c", ["c"])] : DepMap).map Prod.fst) ∧
      (∀ k, k ∈ (([("a", ["b", "a"]), ("b", ["a"]), ("c", ["c"])] : DepMap).map Prod.fst) →
        r.count k = 1) ∧
      (∀ k, k ∉ (([("a", ["b", "a"]), ("b", ["a"]), ("c", ["c"])] : DepMap).map Prod.fst) →
        r.count k = 0) :=
  c1_sequencer_terminates_each_key_once.1
    [("a", ["b", "a"]), ("b", ["a"]), ("c", ["c"])] (by decide)
